import Mathlib

/-!
Verification development for the LidarDataProcessing repository.

Source files embedded here:
* `src/object_features.py` — `classify_object_advanced`, `extract_features`
* `src/tracker.py`         — `EuclideanDistTracker.update`
* `src/ground_filter.py`   — `filter_ground_ransac`
* `src/clustering.py`      — `cluster_objects` (delegating to sklearn DBSCAN)
* `src/main.py`            — the per-frame processing loop

Numeric values are modelled by `ℚ`.  Python's `math.hypot` is only ever
*compared* against thresholds (never stored as such beyond comparisons of
distances), so the tracker embedding carries squared distances and squared
thresholds: for nonnegative quantities `d < t ↔ d² < t²`, which makes every
comparison exact over `ℚ`.
-/

namespace Lidar

/-! ## Classifier (`src/object_features.py`, `classify_object_advanced`) -/

/-- Embedding of `classify_object_advanced` from `src/object_features.py`.
The Python code reads `num_points`, `width`, `length`, `height` from the
feature dict, sorts the two horizontal extents (`dims = sorted([width,
length])`, so `width := dims[0]`, `length := dims[1]`) and then applies the
ordered rules. -/
def classify_object_advanced (num_points : Nat) (width0 length0 height : ℚ) :
    String :=
  let width := min width0 length0
  let length := max width0 length0
  if num_points < 20 ∨ (length < 1/5 ∧ width < 1/5 ∧ height < 1/5) then
    "noise"
  else if height > 1 ∧ length < 3/2 ∧ width < 3/2 then
    if length > 1 then "cyclist" else "pedestrian"
  else if length > 3/2 ∧ width > 1 ∧ height > 4/5 ∧ height < 3 then
    "car"
  else
    "unknown"

/-- Restatement of claim C1's rule list in the claim's own wording (the
refinement side): width is set to the smaller and length to the larger of the
two horizontal extents, then first-match over: noise if `num_points < 20` or
all of length, width, height are `< 0.2`; else cyclist/pedestrian when
`height > 1.0 ∧ length < 1.5 ∧ width < 1.5` (cyclist when `length > 1.0`);
else car when `length > 1.5 ∧ width > 1.0 ∧ 0.8 < height < 3.0`; else
unknown. -/
def classifyClaimC1 (num_points : Nat) (w l height : ℚ) : String :=
  let width := if w ≤ l then w else l
  let length := if w ≤ l then l else w
  if num_points < 20 then "noise"
  else if length < 1/5 ∧ width < 1/5 ∧ height < 1/5 then "noise"
  else if height > 1 ∧ length < 3/2 ∧ width < 3/2 then
    if length > 1 then "cyclist" else "pedestrian"
  else if length > 3/2 ∧ width > 1 ∧ (4/5 < height ∧ height < 3) then "car"
  else "unknown"

/-! ## Tracker (`src/tracker.py`, `EuclideanDistTracker`) -/

/-- Bounding rectangle handed to the tracker: `(x, y, w, h)`. -/
abbrev Rect : Type := ℚ × ℚ × ℚ × ℚ

/-- Centroid of a rectangle, as computed in `update`:
`cx = x + w / 2`, `cy = y + h / 2`. -/
def rectCentroid (r : Rect) : ℚ × ℚ := (r.1 + r.2.2.1 / 2, r.2.1 + r.2.2.2 / 2)

/-- Squared Euclidean distance.  The Python code computes
`math.hypot (cx - pt[0], cy - pt[1])` and only compares it with thresholds,
so working with squares is an exact model of every comparison. -/
def distSq (p q : ℚ × ℚ) : ℚ := (p.1 - q.1) ^ 2 + (p.2 - q.2) ^ 2

/-- State of `EuclideanDistTracker`: `center_points` is the Python dict
`{object_id: (center_x, center_y)}` in insertion order, `id_count` the id
counter. -/
structure EuclideanDistTracker where
  center_points : List (Nat × (ℚ × ℚ))
  id_count : Nat
deriving Repr, DecidableEq

/-- A freshly constructed tracker (`__init__`). -/
def initTracker : EuclideanDistTracker := ⟨[], 0⟩

/-- Inner scan of `update`: over the still-unmatched detection indices, in
input order, keep the index of strictly smallest centroid distance, starting
from `min_dist = dist_thresh` and `best_match_idx = -1` (here `none`); each
improvement must be *strictly* closer. -/
def bestMatch (rects : List Rect) (pt : ℚ × ℚ) :
    List Nat → Option Nat → ℚ → Option Nat
  | [], best, _ => best
  | i :: rest, best, minDistSq =>
    let d := distSq (rectCentroid (rects.getD i (0, 0, 0, 0))) pt
    if d < minDistSq then bestMatch rects pt rest (some i) d
    else bestMatch rects pt rest best minDistSq

/-- Matching phase of `update`: for each tracked identity, in the stored
(insertion) order, find its best still-unmatched detection; on a match the
stored centroid is overwritten, the detection joins the output and leaves the
unmatched pool.  Returns (center point list after in-place updates, matched
output, remaining unmatched indices). -/
def matchLoop (rects : List Rect) (threshSq : ℚ) :
    List (Nat × (ℚ × ℚ)) → List Nat →
    List (Nat × (ℚ × ℚ)) × List (Rect × Nat) × List Nat
  | [], unmatched => ([], [], unmatched)
  | (objId, pt) :: rest, unmatched =>
    match bestMatch rects pt unmatched none threshSq with
    | some i =>
      let r := rects.getD i (0, 0, 0, 0)
      let out := matchLoop rects threshSq rest (unmatched.erase i)
      ((objId, rectCentroid r) :: out.1, (r, objId) :: out.2.1, out.2.2)
    | none =>
      let out := matchLoop rects threshSq rest unmatched
      ((objId, pt) :: out.1, out.2.1, out.2.2)

/-- Spawning phase of `update`: every detection left unmatched gets a fresh id
(`id_count` is incremented first, so ids start at 1), its centroid is stored
and it joins the output.  Returns (new entries, spawned output, final
id counter). -/
def spawnLoop (rects : List Rect) :
    List Nat → Nat → List (Nat × (ℚ × ℚ)) × List (Rect × Nat) × Nat
  | [], idCount => ([], [], idCount)
  | i :: rest, idCount =>
    let r := rects.getD i (0, 0, 0, 0)
    let out := spawnLoop rects rest (idCount + 1)
    ((idCount + 1, rectCentroid r) :: out.1, (r, idCount + 1) :: out.2.1,
      out.2.2)

/-- Embedding of `EuclideanDistTracker.update`.  `threshSq` is the square of
the Python `dist_thresh` (default `5.0`, hence `25`).  The final line is the
dict comprehension that keeps only ids present in this frame's output.
(The Python guard `if self.center_points:` merely skips a loop over an empty
dict, which `matchLoop` on `[]` reproduces.) -/
def EuclideanDistTracker.update (t : EuclideanDistTracker) (rects : List Rect)
    (threshSq : ℚ) : EuclideanDistTracker × List (Rect × Nat) :=
  let m := matchLoop rects threshSq t.center_points (List.range rects.length)
  let s := spawnLoop rects m.2.2 t.id_count
  let tracked := m.2.1 ++ s.2.1
  let activeIds := tracked.map Prod.snd
  ({ center_points := (m.1 ++ s.1).filter (fun p => decide (p.1 ∈ activeIds)),
     id_count := s.2.2 }, tracked)

/-- Invariant used for tracker runs: every tracked id is bounded by the id
counter.  It holds for a fresh tracker and is preserved by `update`. -/
def TrackerInv (t : EuclideanDistTracker) : Prop :=
  ∀ id ∈ t.center_points.map Prod.fst, id ≤ t.id_count

/-- Ids newly assigned by one `update` call: ids in the output that were not
tracked before the call. -/
def newIds (t : EuclideanDistTracker) (rects : List Rect) (q : ℚ) : List Nat :=
  ((t.update rects q).2.map Prod.snd).filter
    (fun id => decide (id ∉ t.center_points.map Prod.fst))

/-- Trace of a run: the pre-state of each `update` call together with its
arguments. -/
def preTrace (t : EuclideanDistTracker) :
    List (List Rect × ℚ) → List (EuclideanDistTracker × List Rect × ℚ)
  | [] => []
  | (f, q) :: fs => (t, f, q) :: preTrace (t.update f q).1 fs

/-- All newly assigned ids over a run, in order of assignment. -/
def runNewIds (t : EuclideanDistTracker) (frames : List (List Rect × ℚ)) :
    List Nat :=
  ((preTrace t frames).map (fun r => newIds r.1 r.2.1 r.2.2)).flatten


/-! ## Ground filter (`src/ground_filter.py`, `filter_ground_ransac`) -/

/-- Point array: `rows` are the points (each row a list of attribute columns,
the first three being XYZ), `cols` the column count (`shape[1]`). -/
structure PtArray where
  rows : List (List ℚ)
  cols : Nat
deriving Repr, DecidableEq

/-- Embedding of `np.delete(points, inliers, axis=0)`: drop exactly the rows
whose index occurs in `inliers`, keeping every other row unchanged and in
order; `i` is the index of the current head row. -/
def npDeleteRows : List (List ℚ) → List Nat → Nat → List (List ℚ)
  | [], _, _ => []
  | r :: rs, idxs, i =>
    if i ∈ idxs then npDeleteRows rs idxs (i + 1)
    else r :: npDeleteRows rs idxs (i + 1)

/-- Embedding of `filter_ground_ransac`.  The winning plane's inlier index
set comes from open3d's `segment_plane`, an external randomized routine to
which the code passes no seed (none is injectable); it enters the model as
the oracle argument `inliers`.  The `none` case models `points is None`: the
Python guard `points is None or points.shape[0] < ransac_n` is then true, and
the branch's return expression `np.empty((0, points.shape[1]))` dereferences
`None`, raising `AttributeError` — modelled as `Except.error`. -/
def filter_ground_ransac : Option PtArray → Nat → List Nat →
    Except String PtArray
  | none, _, _ =>
    .error "AttributeError: NoneType object has no attribute shape"
  | some p, ransac_n, inliers =>
    if p.rows.length < ransac_n then .ok ⟨[], p.cols⟩
    else .ok ⟨npDeleteRows p.rows inliers 0, p.cols⟩


/-! ## Feature extraction (`src/object_features.py`, `extract_features`) -/

/-- A LiDAR point row: `(x, y, z, intensity)`. -/
abbrev Point4 : Type := ℚ × ℚ × ℚ × ℚ

/-- Rounding to the nearest integer with ties to even, modelling the
rounding mode of Python `round`. -/
def roundHalfEven (q : ℚ) : ℤ :=
  let f := ⌊q⌋
  if q - f < 1/2 then f
  else if q - f > 1/2 then f + 1
  else if Even f then f else f + 1

/-- Python `round(x, 2)`: round to 2 decimal places, half to even. -/
def round2 (q : ℚ) : ℚ := (roundHalfEven (q * 100) : ℚ) / 100

/-- Python `int(...)` conversion: truncation toward zero. -/
def truncToInt (q : ℚ) : ℤ := if 0 ≤ q then ⌊q⌋ else -⌊-q⌋

/-- Embedding of `np.unique`: the distinct values in ascending order. -/
def npUnique (l : List ℤ) : List ℤ := l.dedup.insertionSort (· ≤ ·)

/-- Embedding of the boolean-mask selection `points[labels == label]`. -/
def clusterPoints (points : List Point4) (labels : List ℤ) (label : ℤ) :
    List Point4 :=
  ((points.zip labels).filter (fun pr => decide (pr.2 = label))).map Prod.fst

/-- Embedding of `np.min` over a nonempty list (the `[]` case is
unreachable: `extract_features` only evaluates it on cluster members of a
label that occurs). -/
def listMin : List ℚ → ℚ
  | [] => 0
  | [a] => a
  | a :: rest => min a (listMin rest)

/-- Embedding of `np.max` over a nonempty list. -/
def listMax : List ℚ → ℚ
  | [] => 0
  | [a] => a
  | a :: rest => max a (listMax rest)

/-- The feature dict built by `extract_features`. -/
structure ObjectFeature where
  label : ℤ
  num_points : Nat
  width : ℚ
  length : ℚ
  height : ℚ
  avg_intensity : ℤ
  bbox_min : List ℚ
  bbox_max : List ℚ
deriving Repr, DecidableEq

/-- Feature computed for one cluster label, following the loop body of
`extract_features`: count, average intensity truncated to an integer,
extents of the unrounded bounding box rounded to 2 decimals, and the
bounding-box corners themselves also rounded to 2 decimals. -/
def featureOf (points : List Point4) (labels : List ℤ) (label : ℤ) :
    ObjectFeature :=
  let cpts := clusterPoints points labels label
  let xs := cpts.map (fun p => p.1)
  let ys := cpts.map (fun p => p.2.1)
  let zs := cpts.map (fun p => p.2.2.1)
  let ints := cpts.map (fun p => p.2.2.2)
  { label := label
    num_points := cpts.length
    width := round2 (listMax xs - listMin xs)
    length := round2 (listMax ys - listMin ys)
    height := round2 (listMax zs - listMin zs)
    avg_intensity := truncToInt (ints.sum / (cpts.length : ℚ))
    bbox_min := [round2 (listMin xs), round2 (listMin ys), round2 (listMin zs)]
    bbox_max :=
      [round2 (listMax xs), round2 (listMax ys), round2 (listMax zs)] }

/-- Embedding of `extract_features`: one feature per distinct label,
skipping the noise label `-1`, in the sorted order of `np.unique`. -/
def extract_features (points : List Point4) (labels : List ℤ) :
    List ObjectFeature :=
  ((npUnique labels).filter (fun l => decide (l ≠ -1))).map
    (featureOf points labels)

/-! ## Clustering (`src/clustering.py`, `cluster_objects`)

`cluster_objects` delegates the clustering itself to scikit-learn DBSCAN,
whose implementation is not part of this repository.  The definitions below
are therefore modelled from the spec (section 4.2): core points have at
least `min_samples` points (including themselves) within `eps`, clusters
grow from core points through their neighborhoods, border points join the
first cluster that reaches them, labels are handed out in traversal order,
and unreached points stay at `-1`.  This matches the depth-first expansion
performed by sklearn as invoked from `src/clustering.py`; distances are
compared as squares (`epsSq = eps²`), which models the `distance ≤ eps`
test exactly. -/

/-- A 3D position, the first three columns of a point row. -/
abbrev Pt3 : Type := ℚ × ℚ × ℚ

/-- Squared Euclidean distance in 3D. -/
def distSq3 (p q : Pt3) : ℚ :=
  (p.1 - q.1) ^ 2 + (p.2.1 - q.2.1) ^ 2 + (p.2.2 - q.2.2) ^ 2

/-- Modelled from the spec: the `eps`-neighborhood (indices of all points
within distance `eps`, inclusive, including the point itself) of every
point, as computed by the radius query inside sklearn DBSCAN. -/
def neighborhoods (pts : List Pt3) (epsSq : ℚ) : List (List Nat) :=
  (List.range pts.length).map (fun i =>
    (List.range pts.length).filter (fun j =>
      decide (distSq3 (pts.getD i (0, 0, 0)) (pts.getD j (0, 0, 0)) ≤ epsSq)))

/-- Modelled from the spec: a point is a core point when its neighborhood
holds at least `min_samples` points (itself included). -/
def isCore (nbhds : List (List Nat)) (min_samples : Nat) : List Bool :=
  nbhds.map (fun nb => decide (min_samples ≤ nb.length))

/-- Modelled from the spec: the depth-first cluster expansion of sklearn
DBSCAN.  Starting from a seed, an unlabelled point is labelled with the
current cluster id; if it is a core point its still-unlabelled neighbors
are pushed; the stack is popped from the back until empty.  `fuel` bounds
the iteration count (the caller passes more than the loop can consume). -/
def expandLoop (nbhds : List (List Nat)) (core : List Bool) (labelNum : ℤ) :
    Nat → List Nat → List ℤ → Nat → List ℤ
  | _, _, labels, 0 => labels
  | i, stack, labels, fuel + 1 =>
    let step :=
      if labels.getD i 0 = -1 then
        let l2 := labels.set i labelNum
        if core.getD i false then
          (l2, stack ++ ((nbhds.getD i []).filter
            (fun v => decide (l2.getD v 0 = -1))))
        else (l2, stack)
      else (labels, stack)
    match step.2.getLast? with
    | none => step.1
    | some j => expandLoop nbhds core labelNum j step.2.dropLast step.1 fuel

/-- Modelled from the spec: the outer DBSCAN loop — scan points in index
order, start a new cluster at every unlabelled core point. -/
def dbscanOuter (nbhds : List (List Nat)) (core : List Bool) (fuel : Nat) :
    List Nat → List ℤ → ℤ → List ℤ × ℤ
  | [], labels, labelNum => (labels, labelNum)
  | i :: rest, labels, labelNum =>
    if labels.getD i 0 = -1 ∧ core.getD i false = true then
      dbscanOuter nbhds core fuel rest
        (expandLoop nbhds core labelNum i [] labels fuel) (labelNum + 1)
    else dbscanOuter nbhds core fuel rest labels labelNum

/-- Modelled from the spec: DBSCAN labels for a list of 3D points — every
point gets a cluster id in traversal order, or `-1` for noise. -/
def dbscan_labels (pts : List Pt3) (epsSq : ℚ) (min_samples : Nat) :
    List ℤ :=
  (dbscanOuter (neighborhoods pts epsSq)
    (isCore (neighborhoods pts epsSq) min_samples)
    ((pts.length + 1) * (pts.length + 1))
    (List.range pts.length) (List.replicate pts.length (-1)) 0).1

/-- Embedding of `cluster_objects` from `src/clustering.py`: empty input
returns `([], 0)`; otherwise DBSCAN runs on the XYZ columns only, and
`n_clusters = len(set(labels)) - (1 if -1 in labels else 0)`. -/
def cluster_objects (points : List Point4) (epsSq : ℚ) (min_samples : Nat) :
    List ℤ × Nat :=
  if points.length = 0 then ([], 0)
  else
    let labels := dbscan_labels (points.map (fun p => (p.1, p.2.1, p.2.2.1)))
      epsSq min_samples
    (labels, labels.dedup.length - (if -1 ∈ labels then 1 else 0))

/-- Invariant of the DBSCAN outer loop: the label counter is nonnegative,
the label list keeps its length, every label is `-1` or a valid cluster id,
and every cluster id has a labelled core-point member. -/
def ClusterInv (core : List Bool) (n : Nat) (labels : List ℤ) (ln : ℤ) :
    Prop :=
  0 ≤ ln ∧ labels.length = n ∧
  (∀ v ∈ labels, v = -1 ∨ (0 ≤ v ∧ v < ln)) ∧
  (∀ l : ℤ, 0 ≤ l → l < ln → ∃ i, i < n ∧ labels.getD i 0 = l ∧
    core.getD i false = true)

/-! ## Per-frame pipeline (`src/main.py`)

One iteration of the processing loop, after the ground filter: when the
non-ground set is empty the frame is skipped by `continue` (nothing else
runs); otherwise the points are clustered (main.py configuration:
`DBSCAN_EPS = 1.0`, so `epsSq = 1`, `DBSCAN_MIN_SAMPLES = 20`, tracker
default threshold `5.0`, so `threshSq = 25`); with at least one cluster the
features are extracted, classified, the non-noise ones are sent to the
tracker, linked back to tracker ids, and the non-noise records are written;
with zero clusters the tracker is updated with an empty list and an empty
record list is written. -/

/-- A feature together with the class label stored into it by the loop,
computed by `classify_object_advanced`. -/
structure ClassifiedFeature where
  feat : ObjectFeature
  cls : String
deriving Repr, DecidableEq

/-- Classification step of the loop. -/
def classifyFeature (f : ObjectFeature) : ClassifiedFeature :=
  ⟨f, classify_object_advanced f.num_points f.width f.length f.height⟩

/-- Linkage scan of main.py: the first tracker tuple whose `(x, y)` is
within `0.1` (absolute, both axes) of the given bounding-box minimum wins;
no tuple is ever marked as consumed. -/
def firstMatchId (mx my : ℚ) : List (Rect × Nat) → ℤ
  | [] => -1
  | (r, objId) :: rest =>
    if |mx - r.1| < 1/10 ∧ |my - r.2.1| < 1/10 then (objId : ℤ)
    else firstMatchId mx my rest

/-- The `object_id` a feature receives: `-1` by default and for noise,
otherwise the first-match scan over the tracker output. -/
def objectIdFor (cf : ClassifiedFeature) (tracked : List (Rect × Nat)) : ℤ :=
  if cf.cls = "noise" then -1
  else firstMatchId (cf.feat.bbox_min.getD 0 0) (cf.feat.bbox_min.getD 1 0)
    tracked

/-- The id list computed by the linkage loop, one per feature in order. -/
def linkIds (feats : List ClassifiedFeature)
    (tracked : List (Rect × Nat)) : List ℤ :=
  feats.map (fun cf => objectIdFor cf tracked)

/-- Detection rectangle `[min_x, min_y, width, length]` sent to the tracker
for a non-noise feature. -/
def detectionOf (cf : ClassifiedFeature) : Rect :=
  (cf.feat.bbox_min.getD 0 0, cf.feat.bbox_min.getD 1 0, cf.feat.width,
    cf.feat.length)

/-- Detections for the tracker: the non-noise features in order. -/
def detectionsFor (feats : List ClassifiedFeature) : List Rect :=
  (feats.filter (fun cf => decide (cf.cls ≠ "noise"))).map detectionOf

/-- One element of `output_data` (step 6 of the loop). -/
structure OutputRecord where
  object_id : ℤ
  cluster_id : ℤ
  cls : String
  num_points : Nat
  width : ℚ
  length : ℚ
  height : ℚ
  avg_intensity : ℤ
deriving Repr, DecidableEq

/-- Embedding of one iteration of the main.py processing loop from the
point where the non-ground set is known.  `none` means the frame was
skipped by `continue` (no output file written, tracker untouched). -/
def processFrame (t : EuclideanDistTracker) (nonGround : List Point4) :
    EuclideanDistTracker × Option (List OutputRecord) :=
  if nonGround.length = 0 then
    (t, none)
  else
    let cl := cluster_objects nonGround 1 20
    if 0 < cl.2 then
      let feats := (extract_features nonGround cl.1).map classifyFeature
      let upd := t.update (detectionsFor feats) 25
      let ids := linkIds feats upd.2
      let recs := ((feats.zip ids).filter
          (fun p => decide (p.1.cls ≠ "noise"))).map
        (fun p => OutputRecord.mk p.2 p.1.feat.label p.1.cls
          p.1.feat.num_points p.1.feat.width p.1.feat.length
          p.1.feat.height p.1.feat.avg_intensity)
      (upd.1, some recs)
    else
      ((t.update [] 25).1, some [])

/-! ## Theorems -/

theorem ifOrSplit {α : Type} {A B : Prop} [Decidable A] [Decidable B]
    {x y : α} :
    (if A ∨ B then x else y) = if A then x else if B then x else y := by
  split_ifs <;> tauto

/-- C1: `classify_object_advanced` first sets width to the smaller and length
to the larger of the two horizontal extents, then returns exactly one label by
first-match over the ordered rules of the claim (noise; cyclist/pedestrian;
car; unknown).  It is total over the five labels and invariant under swapping
the width and length inputs. -/
theorem classify_object_advanced_spec_C1 (n : Nat) (w l h : ℚ) :
    classify_object_advanced n w l h = classifyClaimC1 n w l h ∧
    classify_object_advanced n w l h = classify_object_advanced n l w h ∧
    classify_object_advanced n w l h ∈
      ["noise", "pedestrian", "cyclist", "car", "unknown"] := by
  refine ⟨?_, ?_, ?_⟩
  · simp only [classify_object_advanced, classifyClaimC1, ← min_def,
      ← max_def, ifOrSplit]
  · simp only [classify_object_advanced, min_comm l w, max_comm l w]
  · simp only [classify_object_advanced]
    split_ifs <;> simp

/-- C2: on a fresh tracker, `update [[0,0,2,2]]` yields exactly
`[[0,0,2,2,1]]` with stored centroid `(1,1)`; a subsequent
`update [[0.2,0.1,2,2]]` re-matches id 1 (squared centroid distance
`1/20 = 0.22²` is strictly below the squared default threshold `25 = 5.0²`)
and moves the stored centroid to `(1.2,1.1)`; a subsequent `update []`
returns `[]` and empties the centroid map. -/
theorem tracker_scenario_C2 :
    (initTracker.update [(0, 0, 2, 2)] 25 =
      (⟨[(1, (1, 1))], 1⟩, [((0, 0, 2, 2), 1)])) ∧
    ((⟨[(1, (1, 1))], 1⟩ : EuclideanDistTracker).update
        [(1/5, 1/10, 2, 2)] 25 =
      (⟨[(1, (6/5, 11/10))], 1⟩, [((1/5, 1/10, 2, 2), 1)])) ∧
    distSq (rectCentroid (1/5, 1/10, 2, 2)) (1, 1) = 1/20 ∧
    (1/20 : ℚ) < 25 ∧
    ((⟨[(1, (6/5, 11/10))], 1⟩ : EuclideanDistTracker).update [] 25 =
      (⟨[], 1⟩, [])) := by
  refine ⟨?_, ?_, ?_, ?_, ?_⟩ <;>
    norm_num [EuclideanDistTracker.update, matchLoop, bestMatch, spawnLoop,
      rectCentroid, distSq, initTracker, List.range, List.range_succ]

theorem matchLoop_map_fst (rects : List Rect) (q : ℚ) :
    ∀ (cps : List (Nat × (ℚ × ℚ))) (un : List Nat),
      (matchLoop rects q cps un).1.map Prod.fst = cps.map Prod.fst := by
  intro cps
  induction cps with
  | nil => intro un; rfl
  | cons hd tl ih =>
    intro un
    obtain ⟨objId, pt⟩ := hd
    simp only [matchLoop]
    cases bestMatch rects pt un none q with
    | some i => simp [ih]
    | none => simp [ih]

theorem matchLoop_out_sub (rects : List Rect) (q : ℚ) :
    ∀ (cps : List (Nat × (ℚ × ℚ))) (un : List Nat) (id : Nat),
      id ∈ (matchLoop rects q cps un).2.1.map Prod.snd →
      id ∈ cps.map Prod.fst := by
  intro cps
  induction cps with
  | nil => intro un id h; simp [matchLoop] at h
  | cons hd tl ih =>
    intro un id h
    obtain ⟨objId, pt⟩ := hd
    simp only [matchLoop] at h
    cases hbm : bestMatch rects pt un none q with
    | some i =>
      rw [hbm] at h
      simp only [List.map_cons, List.mem_cons] at h
      rcases h with h | h
      · simp [h]
      · simp only [List.map_cons, List.mem_cons]
        exact Or.inr (ih _ id h)
    | none =>
      rw [hbm] at h
      simp only [List.map_cons, List.mem_cons]
      exact Or.inr (ih _ id h)

theorem spawnLoop_fst (rects : List Rect) :
    ∀ (un : List Nat) (c : Nat),
      (spawnLoop rects un c).1.map Prod.fst = List.range' (c + 1) un.length := by
  intro un
  induction un with
  | nil => intro c; rfl
  | cons i rest ih =>
    intro c
    simp only [spawnLoop, List.map_cons, List.length_cons, List.range'_succ, ih]

theorem spawnLoop_out (rects : List Rect) :
    ∀ (un : List Nat) (c : Nat),
      (spawnLoop rects un c).2.1.map Prod.snd =
        List.range' (c + 1) un.length := by
  intro un
  induction un with
  | nil => intro c; rfl
  | cons i rest ih =>
    intro c
    simp only [spawnLoop, List.map_cons, List.length_cons, List.range'_succ, ih]

theorem spawnLoop_count (rects : List Rect) :
    ∀ (un : List Nat) (c : Nat),
      (spawnLoop rects un c).2.2 = c + un.length := by
  intro un
  induction un with
  | nil => intro c; simp [spawnLoop]
  | cons i rest ih =>
    intro c
    simp only [spawnLoop, List.length_cons, ih]
    omega


theorem filterActive_iff
    (cps1 newCps : List (Nat × (ℚ × ℚ))) (out1 out2 : List (Rect × Nat))
    (id : Nat)
    (h1 : ∀ i ∈ out1.map Prod.snd, i ∈ cps1.map Prod.fst)
    (h2 : ∀ i ∈ out2.map Prod.snd, i ∈ newCps.map Prod.fst) :
    id ∈ ((cps1 ++ newCps).filter
        (fun p => decide (p.1 ∈ (out1 ++ out2).map Prod.snd))).map Prod.fst ↔
      id ∈ (out1 ++ out2).map Prod.snd := by
  constructor
  · intro h
    obtain ⟨pair, hmem, hfst⟩ := List.mem_map.mp h
    obtain ⟨-, hp⟩ := List.mem_filter.mp hmem
    rw [decide_eq_true_eq] at hp
    rw [← hfst]
    exact hp
  · intro h
    have hid : id ∈ (cps1 ++ newCps).map Prod.fst := by
      rw [List.map_append, List.mem_append]
      rw [List.map_append, List.mem_append] at h
      rcases h with h | h
      · exact Or.inl (h1 id h)
      · exact Or.inr (h2 id h)
    obtain ⟨pair, hmem, hfst⟩ := List.mem_map.mp hid
    refine List.mem_map.mpr ⟨pair, List.mem_filter.mpr ⟨hmem, ?_⟩, hfst⟩
    rw [decide_eq_true_eq, hfst]
    exact h

theorem update_ids_iff (t : EuclideanDistTracker) (rects : List Rect) (q : ℚ)
    (id : Nat) :
    id ∈ (t.update rects q).1.center_points.map Prod.fst ↔
    id ∈ (t.update rects q).2.map Prod.snd := by
  simp only [EuclideanDistTracker.update]
  refine filterActive_iff _ _ _ _ id ?_ ?_
  · intro i hi
    rw [matchLoop_map_fst]
    exact matchLoop_out_sub rects q _ _ i hi
  · intro i hi
    rw [spawnLoop_fst]
    rw [spawnLoop_out] at hi
    exact hi

theorem update_newIds_spec (t : EuclideanDistTracker) (rects : List Rect)
    (q : ℚ) (hInv : TrackerInv t) :
    ∃ k, newIds t rects q = List.range' (t.id_count + 1) k ∧
      (t.update rects q).1.id_count = t.id_count + k := by
  refine ⟨(matchLoop rects q t.center_points
      (List.range rects.length)).2.2.length, ?_, ?_⟩
  · unfold newIds
    simp only [EuclideanDistTracker.update]
    rw [List.map_append, List.filter_append]
    have h1 : ((matchLoop rects q t.center_points
        (List.range rects.length)).2.1.map Prod.snd).filter
        (fun id => decide (id ∉ t.center_points.map Prod.fst)) = [] := by
      rw [List.filter_eq_nil_iff]
      intro a ha
      simp only [decide_not, Bool.not_eq_true', decide_eq_false_iff_not,
        not_not]
      exact matchLoop_out_sub rects q _ _ a ha
    have h2 : ((spawnLoop rects (matchLoop rects q t.center_points
        (List.range rects.length)).2.2 t.id_count).2.1.map Prod.snd).filter
        (fun id => decide (id ∉ t.center_points.map Prod.fst)) =
        List.range' (t.id_count + 1)
          (matchLoop rects q t.center_points
            (List.range rects.length)).2.2.length := by
      rw [spawnLoop_out, List.filter_eq_self]
      intro a ha
      rw [List.mem_range'_1] at ha
      simp only [decide_not, Bool.not_eq_true', decide_eq_false_iff_not]
      intro hmem
      have := hInv a hmem
      omega
    rw [h1, h2, List.nil_append]
  · simp only [EuclideanDistTracker.update]
    rw [spawnLoop_count]

theorem update_inv (t : EuclideanDistTracker) (rects : List Rect) (q : ℚ)
    (hInv : TrackerInv t) : TrackerInv (t.update rects q).1 := by
  intro id hid
  rw [update_ids_iff] at hid
  simp only [EuclideanDistTracker.update] at hid ⊢
  rw [spawnLoop_count]
  rw [List.map_append, List.mem_append] at hid
  rcases hid with h | h
  · have := hInv id (matchLoop_out_sub rects q _ _ id h)
    omega
  · rw [spawnLoop_out, List.mem_range'_1] at h
    omega

theorem runNewIds_spec (frames : List (List Rect × ℚ)) :
    ∀ (t : EuclideanDistTracker), TrackerInv t →
      ∃ K, runNewIds t frames = List.range' (t.id_count + 1) K := by
  induction frames with
  | nil => intro t _; exact ⟨0, rfl⟩
  | cons fq fs ih =>
    intro t hInv
    obtain ⟨f, q⟩ := fq
    obtain ⟨k, hnew, hcount⟩ := update_newIds_spec t f q hInv
    obtain ⟨K2, hrec⟩ := ih (t.update f q).1 (update_inv t f q hInv)
    refine ⟨K2 + k, ?_⟩
    unfold runNewIds preTrace
    simp only [List.map_cons, List.flatten_cons]
    have hrest : (List.map (fun r => newIds r.1 r.2.1 r.2.2)
        (preTrace (t.update f q).1 fs)).flatten =
        runNewIds (t.update f q).1 fs := rfl
    rw [hrest, hnew, hrec, hcount]
    have hadd : t.id_count + k + 1 = t.id_count + 1 + 1 * k := by omega
    rw [hadd]
    exact List.range'_append (t.id_count + 1) k K2 1

/-- C3: over every sequence of `update` calls on one tracker instance, the
newly assigned ids are strictly increasing across the whole run (hence an id,
once discarded, is never reassigned), and immediately after each update the
set of ids in the internal centroid map equals the set of ids in that
update's returned list. -/
theorem tracker_run_C3 (frames : List (List Rect × ℚ)) :
    List.Pairwise (· < ·) (runNewIds initTracker frames) ∧
    ∀ rec ∈ preTrace initTracker frames, ∀ id : Nat,
      (id ∈ (rec.1.update rec.2.1 rec.2.2).1.center_points.map Prod.fst ↔
        id ∈ (rec.1.update rec.2.1 rec.2.2).2.map Prod.snd) := by
  constructor
  · obtain ⟨K, hK⟩ := runNewIds_spec frames initTracker
      (by intro id h; simp [initTracker] at h)
    rw [hK]
    exact List.pairwise_lt_range' _ _
  · intro rec _ id
    exact update_ids_iff rec.1 rec.2.1 rec.2.2 id

/-- Witness for C3 at a concrete one-frame run. -/
theorem tracker_run_C3_witness :
    (1 ∈ ((initTracker.update [((0 : ℚ), 0, 2, 2)] 25).1.center_points.map
        Prod.fst) ↔
      1 ∈ ((initTracker.update [((0 : ℚ), 0, 2, 2)] 25).2.map Prod.snd)) :=
  (tracker_run_C3 [([((0 : ℚ), 0, 2, 2)], 25)]).2
    (initTracker, [((0 : ℚ), 0, 2, 2)], 25) (by simp [preTrace]) 1

/-- Helper: `np.delete` keeps exactly the rows whose index is not deleted,
in order. -/
theorem npDeleteRows_eq_filter (idxs : List Nat) :
    ∀ (rs : List (List ℚ)) (i : Nat),
      npDeleteRows rs idxs i =
        ((List.enumFrom i rs).filter
          (fun pr => decide (pr.1 ∉ idxs))).map Prod.snd := by
  intro rs
  induction rs with
  | nil => intro i; rfl
  | cons r rest ih =>
    intro i
    simp only [npDeleteRows, List.enumFrom, List.filter_cons]
    by_cases h : i ∈ idxs
    · simp [h, ih]
    · simp [h, ih]

/-- Helper: the non-ground rows form a sublist of the input rows (original
relative order, rows unchanged). -/
theorem npDeleteRows_sublist (idxs : List Nat) :
    ∀ (rs : List (List ℚ)) (i : Nat), (npDeleteRows rs idxs i).Sublist rs := by
  intro rs
  induction rs with
  | nil => intro i; simp [npDeleteRows]
  | cons r rest ih =>
    intro i
    simp only [npDeleteRows]
    by_cases h : i ∈ idxs
    · simp only [h, if_true]
      exact (ih (i + 1)).cons r
    · simp only [h, if_false]
      exact (ih (i + 1)).cons₂ r

/-- C7: with at least `ransac_n` rows, `filter_ground_ransac` returns exactly
the input rows whose index is not an inlier of the winning plane, in their
original relative order with every attribute column unchanged (a sublist of
the input); with fewer than `ransac_n` rows it returns an empty result of the
input\x27s column count. -/
theorem filter_ground_ransac_C7 (p : PtArray) (ransac_n : Nat)
    (inliers : List Nat) :
    (ransac_n ≤ p.rows.length →
      filter_ground_ransac (some p) ransac_n inliers =
        .ok ⟨(p.rows.enum.filter (fun pr => decide (pr.1 ∉ inliers))).map
          Prod.snd, p.cols⟩ ∧
      (npDeleteRows p.rows inliers 0).Sublist p.rows) ∧
    (p.rows.length < ransac_n →
      filter_ground_ransac (some p) ransac_n inliers = .ok ⟨[], p.cols⟩) := by
  constructor
  · intro h
    constructor
    · simp only [filter_ground_ransac, Nat.not_lt.mpr h, if_false,
        npDeleteRows_eq_filter, List.enum]
    · exact npDeleteRows_sublist inliers p.rows 0
  · intro h
    simp only [filter_ground_ransac, h, if_true]

/-- Witness for C7 at concrete inputs for both hypotheses. -/
theorem filter_ground_ransac_C7_witness :
    ((3 : Nat) ≤ 3 ∧
      (filter_ground_ransac (some ⟨[[0, 0, 0, 7], [1, 0, 0, 8], [0, 1, 0, 9]],
          4⟩) 3 [1] =
        .ok ⟨[[0, 0, 0, 7], [0, 1, 0, 9]], 4⟩)) ∧
    ((1 : Nat) < 3 ∧
      filter_ground_ransac (some ⟨[[5, 5, 5, 5]], 4⟩) 3 [] =
        .ok ⟨[], 4⟩) := by
  constructor
  · refine ⟨by norm_num, ?_⟩
    have h := (filter_ground_ransac_C7
      ⟨[[0, 0, 0, 7], [1, 0, 0, 8], [0, 1, 0, 9]], 4⟩ 3 [1]).1 (by norm_num)
    rw [h.1]
    rfl
  · exact ⟨by norm_num,
      (filter_ground_ransac_C7 ⟨[[5, 5, 5, 5]], 4⟩ 3 []).2 (by norm_num)⟩

/-- C10: called with `points = None`, `filter_ground_ransac` raises
(`AttributeError` from `points.shape[1]`) instead of returning the documented
empty result; the empty result is reachable exactly for non-None inputs with
fewer than `ransac_n` rows. -/
theorem filter_ground_ransac_none_C10 :
    (∀ (ransac_n : Nat) (inliers : List Nat),
      filter_ground_ransac none ransac_n inliers =
        .error "AttributeError: NoneType object has no attribute shape") ∧
    ∀ (p : PtArray) (ransac_n : Nat) (inliers : List Nat),
      p.rows.length < ransac_n →
      filter_ground_ransac (some p) ransac_n inliers = .ok ⟨[], p.cols⟩ := by
  constructor
  · intro _ _; rfl
  · intro p n i h
    simp only [filter_ground_ransac, h, if_true]

/-- Witness for C10 at concrete inputs. -/
theorem filter_ground_ransac_none_C10_witness :
    (filter_ground_ransac none 3 [] =
      .error "AttributeError: NoneType object has no attribute shape") ∧
    ((1 : Nat) < 3 ∧
      filter_ground_ransac (some ⟨[[5, 5, 5, 5]], 4⟩) 3 [0] =
        .ok ⟨[], 4⟩) :=
  ⟨filter_ground_ransac_none_C10.1 3 [],
    by norm_num,
    filter_ground_ransac_none_C10.2 ⟨[[5, 5, 5, 5]], 4⟩ 3 [0] (by norm_num)⟩

/-- Supporting fact for C6: the result of `filter_ground_ransac` depends on
the inlier choice made by the unseeded external `segment_plane` call, so the
output is not a function of the input frame alone. -/
theorem filter_ground_ransac_oracle_dep_C6 :
    filter_ground_ransac
        (some ⟨[[0, 0, 0, 7], [1, 0, 0, 8], [0, 1, 0, 9]], 4⟩) 3 [0] ≠
      filter_ground_ransac
        (some ⟨[[0, 0, 0, 7], [1, 0, 0, 8], [0, 1, 0, 9]], 4⟩) 3 [1] := by
  norm_num [filter_ground_ransac, npDeleteRows]

/-- Helper: `listMin` of a nonempty list is a member and a lower bound. -/
theorem listMin_spec (l : List ℚ) (h : l ≠ []) :
    listMin l ∈ l ∧ ∀ a ∈ l, listMin l ≤ a := by
  induction l with
  | nil => exact absurd rfl h
  | cons a rest ih =>
    cases rest with
    | nil => simp [listMin]
    | cons b tl =>
      obtain ⟨hmem, hle⟩ := ih (by simp)
      constructor
      · simp only [listMin]
        rcases min_cases a (listMin (b :: tl)) with ⟨he, -⟩ | ⟨he, -⟩
        · simp [he]
        · simp only [he, List.mem_cons]
          right
          simpa using hmem
      · intro c hc
        simp only [listMin]
        rcases List.mem_cons.mp hc with rfl | hc
        · exact min_le_left _ _
        · exact le_trans (min_le_right _ _) (hle c hc)

/-- Helper: `listMax` of a nonempty list is a member and an upper bound. -/
theorem listMax_spec (l : List ℚ) (h : l ≠ []) :
    listMax l ∈ l ∧ ∀ a ∈ l, a ≤ listMax l := by
  induction l with
  | nil => exact absurd rfl h
  | cons a rest ih =>
    cases rest with
    | nil => simp [listMax]
    | cons b tl =>
      obtain ⟨hmem, hle⟩ := ih (by simp)
      constructor
      · simp only [listMax]
        rcases max_cases a (listMax (b :: tl)) with ⟨he, -⟩ | ⟨he, -⟩
        · simp [he]
        · simp only [he, List.mem_cons]
          right
          simpa using hmem
      · intro c hc
        simp only [listMax]
        rcases List.mem_cons.mp hc with rfl | hc
        · exact le_max_left _ _
        · exact le_trans (hle c hc) (le_max_right _ _)

/-- Helper: with aligned lengths, the member count of a label equals its
number of occurrences among the labels. -/
theorem clusterPoints_length (label : ℤ) :
    ∀ (points : List Point4) (labels : List ℤ),
      labels.length = points.length →
      (clusterPoints points labels label).length = labels.count label := by
  intro points
  induction points with
  | nil =>
    intro labels h
    rw [List.length_nil] at h
    rw [List.eq_nil_of_length_eq_zero h]
    rfl
  | cons p rest ih =>
    intro labels h
    cases labels with
    | nil => simp at h
    | cons l tl =>
      simp only [List.length_cons, Nat.succ.injEq] at h
      simp only [clusterPoints, List.zip_cons_cons, List.filter_cons,
        List.count_cons]
      by_cases he : l = label
      · have := ih tl h
        simp only [clusterPoints] at this
        simp [he, this]
      · have := ih tl h
        simp only [clusterPoints] at this
        simp [he, this]
/-- Counterexample to C9 as stated: the code rounds `bbox_min`/`bbox_max` to
2 decimal places, so for a member point with x-coordinate `0.123` the
returned `bbox_min` is `[0.12, 0, 0]`, not the coordinate-wise minimum
`[0.123, 0, 0]`. -/
theorem extract_features_bbox_cex_C9 :
    (extract_features [(123/1000, 0, 0, 5)] [0]).map ObjectFeature.bbox_min =
      [[12/100, 0, 0]] ∧
    ((12 : ℚ)/100) ≠ 123/1000 := by
  constructor
  · norm_num [extract_features, npUnique, featureOf, clusterPoints, round2,
      roundHalfEven, listMin, listMax, List.insertionSort, List.orderedInsert,
      List.dedup, List.pwFilter]
  · norm_num
/-- Helper: the feature built for a label carries that label. -/
theorem featureOf_label (points : List Point4) (labels : List ℤ) (l : ℤ) :
    (featureOf points labels l).label = l := rfl

/-- C9 (amended): `extract_features` returns exactly one feature per
distinct non-noise label (sorted, none for `-1`); each feature counts its
member points, its width/length/height are the x/y/z bounding-box extents
rounded to 2 decimals, its `bbox_min`/`bbox_max` are the coordinate-wise
minima/maxima of the member points *rounded to 2 decimals*, and its
`avg_intensity` is the mean member intensity truncated to an integer. -/
theorem extract_features_spec_C9 (points : List Point4) (labels : List ℤ)
    (hlen : labels.length = points.length) :
    ((extract_features points labels).map ObjectFeature.label).Pairwise
        (· < ·) ∧
    (∀ l : ℤ, l ∈ (extract_features points labels).map ObjectFeature.label ↔
        (l ∈ labels ∧ l ≠ -1)) ∧
    ∀ f ∈ extract_features points labels,
      f.label ≠ -1 ∧
      f.num_points = labels.count f.label ∧
      (let cpts := clusterPoints points labels f.label
       let xs := cpts.map (fun p => p.1)
       let ys := cpts.map (fun p => p.2.1)
       let zs := cpts.map (fun p => p.2.2.1)
       f.width = round2 (listMax xs - listMin xs) ∧
       f.length = round2 (listMax ys - listMin ys) ∧
       f.height = round2 (listMax zs - listMin zs) ∧
       f.bbox_min =
         [round2 (listMin xs), round2 (listMin ys), round2 (listMin zs)] ∧
       f.bbox_max =
         [round2 (listMax xs), round2 (listMax ys), round2 (listMax zs)] ∧
       f.avg_intensity =
         truncToInt ((cpts.map (fun p => p.2.2.2)).sum / (f.num_points : ℚ))) := by
  have hmapl : (extract_features points labels).map ObjectFeature.label =
      (npUnique labels).filter (fun l => decide (l ≠ -1)) := by
    simp [extract_features, List.map_map, Function.comp_def, featureOf_label]
  refine ⟨?_, ?_, ?_⟩
  · rw [hmapl]
    have hsorted : ((npUnique labels).filter
        (fun l => decide (l ≠ -1))).Pairwise (· ≤ ·) :=
      (List.sorted_insertionSort (· ≤ ·) labels.dedup).sublist
        (List.filter_sublist _)
    have hnodup : ((npUnique labels).filter
        (fun l => decide (l ≠ -1))).Nodup := by
      refine List.Nodup.sublist (List.filter_sublist _) ?_
      exact ((List.perm_insertionSort (· ≤ ·) labels.dedup).nodup_iff).mpr
        (List.nodup_dedup labels)
    exact (hsorted.and hnodup).imp (fun h => lt_of_le_of_ne h.1 h.2)
  · intro l
    rw [hmapl]
    rw [List.mem_filter]
    simp only [decide_eq_true_eq]
    constructor
    · rintro ⟨hl, hne⟩
      refine ⟨?_, hne⟩
      rw [← List.mem_dedup]
      exact ((List.perm_insertionSort (· ≤ ·) labels.dedup).mem_iff).mp hl
    · rintro ⟨hl, hne⟩
      exact ⟨((List.perm_insertionSort (· ≤ ·) labels.dedup).mem_iff).mpr
        (List.mem_dedup.mpr hl), hne⟩
  · intro f hf
    obtain ⟨l, hl, rfl⟩ := List.mem_map.mp hf
    have hlne : l ≠ -1 := by
      have := (List.mem_filter.mp hl).2
      simpa using this
    refine ⟨hlne, ?_, ?_⟩
    · show (clusterPoints points labels l).length = _
      rw [featureOf_label]
      exact clusterPoints_length l points labels hlen
    · exact ⟨rfl, rfl, rfl, rfl, rfl, rfl⟩

/-- Witness for C9 (amended) at a concrete input. -/
theorem extract_features_spec_C9_witness :
    (([0] : List ℤ).length = [((0 : ℚ), 0, 0, 5)].length) ∧
    (featureOf [((0 : ℚ), 0, 0, 5)] [0] 0).num_points =
      List.count (featureOf [((0 : ℚ), 0, 0, 5)] [0] 0).label [0] :=
  ⟨rfl,
    ((extract_features_spec_C9 [((0 : ℚ), 0, 0, 5)] [0] rfl).2.2
      (featureOf [((0 : ℚ), 0, 0, 5)] [0] 0)
      (List.mem_singleton.mpr rfl)).2.1⟩

/-- Helper: the concrete neighborhood table of the C8 counterexample
configuration. -/
theorem nbhds_cex :
    neighborhoods [(0, 0, 0), (0, 1, 0), (0, -1, 0), (1, 0, 0), (2, 0, 0),
        (3, 0, 0), (2, 1, 0)] 1 =
      [[0, 1, 2, 3], [0, 1], [0, 2], [0, 3, 4], [3, 4, 5, 6], [4, 5],
        [4, 6]] := by
  norm_num [neighborhoods, distSq3, List.range_succ]

/-- Helper: DBSCAN labels of the C8 counterexample configuration: the
border point `(1,0)` is claimed by cluster 0, leaving cluster 1 with only
three members. -/
theorem labels_cex :
    dbscan_labels [(0, 0, 0), (0, 1, 0), (0, -1, 0), (1, 0, 0), (2, 0, 0),
        (3, 0, 0), (2, 1, 0)] 1 4 = [0, 0, 0, 0, 1, 1, 1] := by
  unfold dbscan_labels
  rw [nbhds_cex]
  decide

/-- Counterexample to C8 as stated: with `eps = 1` and `min_samples = 4`,
the seven points below produce cluster label 1 with only 3 member points
(its fourth density-reachable point is claimed by the earlier cluster 0),
so a returned non-noise cluster can have fewer than `min_samples` members. -/
theorem cluster_objects_cex_C8 :
    cluster_objects [(0, 0, 0, 0), (0, 1, 0, 0), (0, -1, 0, 0), (1, 0, 0, 0),
        (2, 0, 0, 0), (3, 0, 0, 0), (2, 1, 0, 0)] 1 4 =
      ([0, 0, 0, 0, 1, 1, 1], 2) ∧
    List.count 1 ([0, 0, 0, 0, 1, 1, 1] : List ℤ) = 3 ∧ (3 : Nat) < 4 := by
  have hpts : ([(0, 0, 0, 0), (0, 1, 0, 0), (0, -1, 0, 0), (1, 0, 0, 0),
      (2, 0, 0, 0), (3, 0, 0, 0), (2, 1, 0, 0)] : List Point4).map
        (fun p => (p.1, p.2.1, p.2.2.1)) =
      [(0, 0, 0), (0, 1, 0), (0, -1, 0), (1, 0, 0), (2, 0, 0), (3, 0, 0),
        (2, 1, 0)] := rfl
  refine ⟨?_, by decide, by decide⟩
  simp only [cluster_objects, hpts, labels_cex]
  decide

/-- Helper: cluster expansion preserves the length of the label list. -/
theorem expandLoop_length (nbhds : List (List Nat)) (core : List Bool)
    (ln : ℤ) :
    ∀ (fuel i : Nat) (stack : List Nat) (labels : List ℤ),
      (expandLoop nbhds core ln i stack labels fuel).length =
        labels.length := by
  intro fuel
  induction fuel with
  | zero => intro i stack labels; rfl
  | succ f ih =>
    intro i stack labels
    simp only [expandLoop]
    by_cases h1 : labels.getD i 0 = -1
    · by_cases h2 : core.getD i false
      · rw [if_pos h1, if_pos h2]
        dsimp only
        cases (stack ++ ((nbhds.getD i []).filter
            (fun v => decide ((labels.set i ln).getD v 0 = -1)))).getLast? with
        | none => exact List.length_set labels i ln
        | some j => exact (ih j _ _).trans (List.length_set labels i ln)
      · rw [if_pos h1, if_neg h2]
        dsimp only
        cases stack.getLast? with
        | none => exact List.length_set labels i ln
        | some j => exact (ih j _ _).trans (List.length_set labels i ln)
    · rw [if_neg h1]
      dsimp only
      cases stack.getLast? with
      | none => rfl
      | some j => exact ih j _ _

/-- Helper: cluster expansion only writes the current cluster id. -/
theorem expandLoop_mem (nbhds : List (List Nat)) (core : List Bool)
    (ln : ℤ) :
    ∀ (fuel i : Nat) (stack : List Nat) (labels : List ℤ) (v : ℤ),
      v ∈ expandLoop nbhds core ln i stack labels fuel →
      v ∈ labels ∨ v = ln := by
  intro fuel
  induction fuel with
  | zero => intro i stack labels v h; exact Or.inl h
  | succ f ih =>
    intro i stack labels v h
    simp only [expandLoop] at h
    by_cases h1 : labels.getD i 0 = -1
    · by_cases h2 : core.getD i false
      · rw [if_pos h1, if_pos h2] at h
        dsimp only at h
        cases hl : (stack ++ ((nbhds.getD i []).filter
            (fun w => decide ((labels.set i ln).getD w 0 = -1)))).getLast? with
        | none =>
          rw [hl] at h
          exact List.mem_or_eq_of_mem_set h
        | some j =>
          rw [hl] at h
          rcases ih j _ _ v h with hv | hv
          · exact (List.mem_or_eq_of_mem_set hv).imp_right id
          · exact Or.inr hv
      · rw [if_pos h1, if_neg h2] at h
        dsimp only at h
        cases hl : stack.getLast? with
        | none =>
          rw [hl] at h
          exact List.mem_or_eq_of_mem_set h
        | some j =>
          rw [hl] at h
          rcases ih j _ _ v h with hv | hv
          · exact (List.mem_or_eq_of_mem_set hv).imp_right id
          · exact Or.inr hv
    · rw [if_neg h1] at h
      dsimp only at h
      cases hl : stack.getLast? with
      | none => rw [hl] at h; exact Or.inl h
      | some j =>
        rw [hl] at h
        exact ih j _ _ v h

/-- Helper: cluster expansion never overwrites an assigned label. -/
theorem expandLoop_preserve (nbhds : List (List Nat)) (core : List Bool)
    (ln : ℤ) :
    ∀ (fuel i : Nat) (stack : List Nat) (labels : List ℤ) (pos : Nat),
      labels.getD pos 0 ≠ -1 →
      (expandLoop nbhds core ln i stack labels fuel).getD pos 0 =
        labels.getD pos 0 := by
  intro fuel
  induction fuel with
  | zero => intro i stack labels pos h; rfl
  | succ f ih =>
    intro i stack labels pos h
    have hset : labels.getD i 0 = -1 →
        (labels.set i ln).getD pos 0 = labels.getD pos 0 := by
      intro hne
      have hip : i ≠ pos := fun he => h (he ▸ hne)
      simp only [List.getD_eq_getElem?_getD, List.getElem?_set_ne hip]
    simp only [expandLoop]
    by_cases h1 : labels.getD i 0 = -1
    · by_cases h2 : core.getD i false
      · rw [if_pos h1, if_pos h2]
        dsimp only
        cases (stack ++ ((nbhds.getD i []).filter
            (fun w => decide ((labels.set i ln).getD w 0 = -1)))).getLast? with
        | none => exact hset h1
        | some j =>
          exact (ih j _ _ pos (by rw [hset h1]; exact h)).trans (hset h1)
      · rw [if_pos h1, if_neg h2]
        dsimp only
        cases stack.getLast? with
        | none => exact hset h1
        | some j =>
          exact (ih j _ _ pos (by rw [hset h1]; exact h)).trans (hset h1)
    · rw [if_neg h1]
      dsimp only
      cases stack.getLast? with
      | none => rfl
      | some j => exact ih j _ _ pos h

/-- Helper: cluster expansion labels its unlabelled seed with the current
cluster id. -/
theorem expandLoop_sets_start (nbhds : List (List Nat)) (core : List Bool)
    (ln : ℤ) (f i : Nat) (stack : List Nat) (labels : List ℤ)
    (hi : i < labels.length) (hunl : labels.getD i 0 = -1) (hln : 0 ≤ ln) :
    (expandLoop nbhds core ln i stack labels (f + 1)).getD i 0 = ln := by
  have hsetgetD : (labels.set i ln).getD i 0 = ln := by
    simp only [List.getD_eq_getElem?_getD, List.getElem?_set_self hi,
      Option.getD_some]
  have hne : (labels.set i ln).getD i 0 ≠ -1 := by
    rw [hsetgetD]
    omega
  simp only [expandLoop]
  rw [if_pos hunl]
  by_cases h2 : core.getD i false
  · rw [if_pos h2]
    dsimp only
    cases (stack ++ ((nbhds.getD i []).filter
        (fun w => decide ((labels.set i ln).getD w 0 = -1)))).getLast? with
    | none => exact hsetgetD
    | some j =>
      exact (expandLoop_preserve nbhds core ln f j _ _ i hne).trans hsetgetD
  · rw [if_neg h2]
    dsimp only
    cases stack.getLast? with
    | none => exact hsetgetD
    | some j =>
      exact (expandLoop_preserve nbhds core ln f j _ _ i hne).trans hsetgetD

/-- Helper: the DBSCAN outer loop preserves `ClusterInv`. -/
theorem dbscanOuter_inv (nbhds : List (List Nat)) (core : List Bool)
    (n f : Nat) :
    ∀ (idxs : List Nat) (labels : List ℤ) (ln : ℤ),
      (∀ i ∈ idxs, i < n) → ClusterInv core n labels ln →
      ClusterInv core n
        (dbscanOuter nbhds core (f + 1) idxs labels ln).1
        (dbscanOuter nbhds core (f + 1) idxs labels ln).2 := by
  intro idxs
  induction idxs with
  | nil => intro labels ln _ hInv; exact hInv
  | cons i rest ih =>
    intro labels ln hidx hInv
    obtain ⟨hln, hlen, hvals, hwit⟩ := hInv
    have hin : i < n := hidx i (List.mem_cons_self i rest)
    have hrest : ∀ a ∈ rest, a < n :=
      fun a ha => hidx a (List.mem_cons_of_mem i ha)
    simp only [dbscanOuter]
    by_cases hcond : labels.getD i 0 = -1 ∧ core.getD i false = true
    · rw [if_pos hcond]
      apply ih _ _ hrest
      refine ⟨by omega, ?_, ?_, ?_⟩
      · rw [expandLoop_length]; exact hlen
      · intro v hv
        rcases expandLoop_mem nbhds core ln _ i [] labels v hv with hvl | rfl
        · rcases hvals v hvl with h | h
          · exact Or.inl h
          · exact Or.inr ⟨h.1, by omega⟩
        · exact Or.inr ⟨hln, by omega⟩
      · intro l hl0 hlln
        by_cases heq : l = ln
        · subst heq
          refine ⟨i, hin, ?_, hcond.2⟩
          exact expandLoop_sets_start nbhds core l f i [] labels
            (by rw [hlen]; exact hin) hcond.1 hl0
        · have hlt : l < ln := by omega
          obtain ⟨i0, hi0, hlab, hcore⟩ := hwit l hl0 hlt
          refine ⟨i0, hi0, ?_, hcore⟩
          rw [expandLoop_preserve nbhds core ln _ i [] labels i0
            (by rw [hlab]; omega)]
          exact hlab
    · rw [if_neg hcond]
      exact ih labels ln hrest ⟨hln, hlen, hvals, hwit⟩

/-- Helper: one neighborhood per point. -/
theorem neighborhoods_length (pts : List Pt3) (epsSq : ℚ) :
    (neighborhoods pts epsSq).length = pts.length := by
  simp [neighborhoods]

/-- Helper: reading the core flag of a valid index. -/
theorem isCore_getD (nbhds : List (List Nat)) (ms i : Nat)
    (h : i < nbhds.length) :
    (isCore nbhds ms).getD i false =
      decide (ms ≤ (nbhds.getD i []).length) := by
  simp only [isCore, List.getD_eq_getElem?_getD, List.getElem?_map,
    List.getElem?_eq_getElem h]
  rfl

/-- Helper: the final DBSCAN labelling satisfies `ClusterInv`. -/
theorem dbscan_labels_inv (pts : List Pt3) (epsSq : ℚ) (min_samples : Nat) :
    ∃ ln, ClusterInv (isCore (neighborhoods pts epsSq) min_samples)
      pts.length (dbscan_labels pts epsSq min_samples) ln := by
  have hfuel : (pts.length + 1) * (pts.length + 1) =
      (pts.length * pts.length + 2 * pts.length) + 1 := by ring
  unfold dbscan_labels
  rw [hfuel]
  refine ⟨_, dbscanOuter_inv _ _ pts.length _ (List.range pts.length)
    (List.replicate pts.length (-1)) 0 (fun i hi => List.mem_range.mp hi)
    ⟨le_refl 0, List.length_replicate pts.length (-1), ?_, ?_⟩⟩
  · intro v hv
    exact Or.inl (List.eq_of_mem_replicate hv)
  · intro l hl0 hl
    omega

/-- Helper: on a duplicate-free list, filtering out one value drops its
length by one exactly when the value occurs. -/
theorem nodup_filter_ne_length (a : ℤ) :
    ∀ (l : List ℤ), l.Nodup →
      (l.filter (fun x => decide (x ≠ a))).length =
        l.length - (if a ∈ l then 1 else 0) := by
  intro l
  induction l with
  | nil => intro _; rfl
  | cons b t ih =>
    intro hnd
    obtain ⟨hbt, hndt⟩ := List.nodup_cons.mp hnd
    rw [List.filter_cons]
    by_cases hba : b = a
    · subst hba
      rw [if_neg (by simp : ¬(decide (b ≠ b) = true))]
      have hfilter : t.filter (fun x => decide (x ≠ b)) = t :=
        List.filter_eq_self.mpr (fun x hx => by
          simp only [decide_eq_true_eq]
          exact fun he => hbt (he ▸ hx))
      rw [hfilter, if_pos (List.mem_cons_self b t)]
      simp
    · rw [if_pos (by simp [hba] : decide (b ≠ a) = true)]
      simp only [List.length_cons]
      rw [ih hndt]
      by_cases hat : a ∈ t
      · have h1 : a ∈ b :: t := List.mem_cons_of_mem b hat
        rw [if_pos hat, if_pos h1]
        have hpos : 0 < t.length := List.length_pos_of_mem hat
        omega
      · have h1 : a ∉ b :: t := by
          intro hc
          rcases List.mem_cons.mp hc with he | he
          · exact hba he.symm
          · exact hat he
        rw [if_neg hat, if_neg h1]
        omega

/-- C8 (amended): `cluster_objects` returns `([], 0)` on empty input; the
returned count equals the number of distinct non-noise labels; one label per
point; every label is `-1` (noise, belonging to no cluster) or a cluster id
with at least one core-point member (at least `min_samples` points within
`eps` of it).  A cluster may end up with fewer than `min_samples` labelled
members when border points are claimed by an earlier cluster. -/
theorem cluster_objects_spec_C8 (points : List Point4) (epsSq : ℚ)
    (min_samples : Nat) :
    (points = [] → cluster_objects points epsSq min_samples = ([], 0)) ∧
    (cluster_objects points epsSq min_samples).2 =
      ((cluster_objects points epsSq min_samples).1.dedup.filter
        (fun l => decide (l ≠ -1))).length ∧
    (cluster_objects points epsSq min_samples).1.length = points.length ∧
    ∀ v ∈ (cluster_objects points epsSq min_samples).1,
      v = -1 ∨ (0 ≤ v ∧ ∃ i, i < points.length ∧
        (cluster_objects points epsSq min_samples).1.getD i 0 = v ∧
        min_samples ≤ ((neighborhoods (points.map
          (fun p => (p.1, p.2.1, p.2.2.1))) epsSq).getD i []).length) := by
  by_cases hpts : points = []
  · subst hpts
    exact ⟨fun _ => rfl, rfl, rfl, fun v hv => absurd hv (by simp [cluster_objects])⟩
  · have hlen0 : ¬ points.length = 0 := by
      intro h
      exact hpts (List.eq_nil_of_length_eq_zero h)
    have hco : cluster_objects points epsSq min_samples =
        (dbscan_labels (points.map (fun p => (p.1, p.2.1, p.2.2.1)))
          epsSq min_samples,
         (dbscan_labels (points.map (fun p => (p.1, p.2.1, p.2.2.1)))
           epsSq min_samples).dedup.length -
           (if -1 ∈ dbscan_labels (points.map (fun p => (p.1, p.2.1, p.2.2.1)))
             epsSq min_samples then 1 else 0)) := by
      simp only [cluster_objects]
      rw [if_neg hlen0]
    obtain ⟨ln, hln0, hlenl, hvals, hwit⟩ :=
      dbscan_labels_inv (points.map (fun p => (p.1, p.2.1, p.2.2.1)))
        epsSq min_samples
    rw [hco]
    refine ⟨fun h => absurd h hpts, ?_, ?_, ?_⟩
    · dsimp only
      rw [nodup_filter_ne_length (-1) _ (List.nodup_dedup _)]
      simp [List.mem_dedup]
    · dsimp only
      rw [hlenl, List.length_map]
    · dsimp only
      intro v hv
      rcases hvals v hv with h | h
      · exact Or.inl h
      · obtain ⟨i, hi, hlab, hcore⟩ := hwit v h.1 h.2
        refine Or.inr ⟨h.1, i, by rwa [List.length_map] at hi, hlab, ?_⟩
        rw [isCore_getD _ _ _ (by rwa [neighborhoods_length])] at hcore
        exact of_decide_eq_true hcore

/-- Witness for C8 (amended) at the empty input. -/
theorem cluster_objects_spec_C8_witness :
    cluster_objects ([] : List Point4) 1 1 = ([], 0) ∧
    (cluster_objects ([] : List Point4) 1 1).2 =
      ((cluster_objects ([] : List Point4) 1 1).1.dedup.filter
        (fun l => decide (l ≠ -1))).length :=
  ⟨(cluster_objects_spec_C8 [] 1 1).1 rfl,
    (cluster_objects_spec_C8 [] 1 1).2.1⟩

/-- Counterexample to C5 as stated: on a frame whose non-ground set is
empty the loop hits `continue`, so the tracker is *not* updated with an
empty list — a tracked identity survives the frame instead of being
discarded, and no output is produced. -/
theorem processFrame_cex_C5 :
    processFrame ⟨[(1, (1, 1))], 1⟩ [] = (⟨[(1, (1, 1))], 1⟩, none) ∧
    (⟨[(1, (1, 1))], 1⟩ : EuclideanDistTracker).center_points ≠ [] := by
  exact ⟨rfl, by simp⟩

/-- C5 (amended): a frame with an empty non-ground set is skipped
entirely — clustering, feature extraction, classification *and* the tracker
update are all skipped, the tracker state is unchanged and identities are
retained; the empty-list tracker update happens only when a nonempty
non-ground set yields zero clusters, in which case the output is the empty
record list. -/
theorem processFrame_spec_C5 (t : EuclideanDistTracker)
    (nonGround : List Point4) :
    (nonGround = [] → processFrame t nonGround = (t, none)) ∧
    (nonGround ≠ [] → (cluster_objects nonGround 1 20).2 = 0 →
      processFrame t nonGround = ((t.update [] 25).1, some [])) := by
  constructor
  · rintro rfl
    rfl
  · intro hne hz
    have hlen : ¬ nonGround.length = 0 := by
      simpa [List.length_eq_zero] using hne
    simp only [processFrame]
    rw [if_neg hlen, if_neg (by omega)]

/-- Helper: a single point is noise under `min_samples = 20`. -/
theorem cluster_objects_single :
    cluster_objects [((0 : ℚ), 0, 0, 0)] 1 20 = ([-1], 0) := by
  have hnb : neighborhoods [((0 : ℚ), 0, 0)] 1 = [[0]] := by
    norm_num [neighborhoods, distSq3, List.range_succ]
  have hlab : dbscan_labels [((0 : ℚ), 0, 0)] 1 20 = [-1] := by
    unfold dbscan_labels
    rw [hnb]
    decide
  have hpts : ([((0 : ℚ), 0, 0, 0)] : List Point4).map
      (fun p => (p.1, p.2.1, p.2.2.1)) = [((0 : ℚ), 0, 0)] := rfl
  simp only [cluster_objects, hpts, hlab]
  decide

/-- Witness for C5 (amended) on both branches. -/
theorem processFrame_spec_C5_witness :
    (processFrame initTracker [] = (initTracker, none)) ∧
    (processFrame ⟨[(1, (1, 1))], 1⟩ [((0 : ℚ), 0, 0, 0)] =
      (((⟨[(1, (1, 1))], 1⟩ : EuclideanDistTracker).update [] 25).1,
        some [])) :=
  ⟨(processFrame_spec_C5 initTracker []).1 rfl,
    (processFrame_spec_C5 ⟨[(1, (1, 1))], 1⟩ [((0 : ℚ), 0, 0, 0)]).2
      (by simp) (by rw [cluster_objects_single])⟩

/-- Helper: the first-match scan equals `find?` over the tracker output. -/
theorem firstMatchId_eq_find (mx my : ℚ) :
    ∀ tracked : List (Rect × Nat),
      firstMatchId mx my tracked =
        (tracked.find? (fun tobj =>
            decide (|mx - tobj.1.1| < 1/10 ∧
              |my - tobj.1.2.1| < 1/10))).elim (-1 : ℤ)
          (fun tobj => (tobj.2 : ℤ)) := by
  intro tracked
  induction tracked with
  | nil => rfl
  | cons hd rest ih =>
    obtain ⟨r, objId⟩ := hd
    by_cases h : |mx - r.1| < 1/10 ∧ |my - r.2.1| < 1/10
    · rw [@List.find?_cons_of_pos _
        (fun tobj => decide (|mx - tobj.1.1| < 1/10 ∧ |my - tobj.1.2.1| < 1/10))
        (r, objId) rest (by exact decide_eq_true h)]
      simp only [firstMatchId, Option.elim]
      rw [if_pos h]
    · rw [@List.find?_cons_of_neg _
        (fun tobj => decide (|mx - tobj.1.1| < 1/10 ∧ |my - tobj.1.2.1| < 1/10))
        (r, objId) rest (by simpa using h)]
      simp only [firstMatchId]
      rw [if_neg h]
      exact ih

/-- C4 (amended): every non-noise feature is assigned the id of the first
tracker tuple (in the tracker's returned order) within `0.1` of its
bounding-box minimum on both axes, independently of all other features —
tracker tuples are *not* consumed by earlier features; a feature with no
tuple within tolerance keeps id `-1`, and noise features keep `-1`. -/
theorem linkIds_spec_C4 (feats : List ClassifiedFeature)
    (tracked : List (Rect × Nat)) :
    linkIds feats tracked = feats.map (fun cf =>
      if cf.cls = "noise" then (-1 : ℤ)
      else
        (tracked.find? (fun tobj =>
            decide (|cf.feat.bbox_min.getD 0 0 - tobj.1.1| < 1/10 ∧
              |cf.feat.bbox_min.getD 1 0 - tobj.1.2.1| < 1/10))).elim
          (-1 : ℤ) (fun tobj => (tobj.2 : ℤ))) := by
  unfold linkIds
  apply List.map_congr_left
  intro cf _
  unfold objectIdFor
  by_cases h : cf.cls = "noise"
  · rw [if_pos h, if_pos h]
  · rw [if_neg h, if_neg h]
    exact firstMatchId_eq_find _ _ tracked

/-- Counterexample to C4 as stated: two features both within tolerance of
the same (single) tracker tuple both receive its id 7; the later-enumerated
feature does not stay unresolved. -/
theorem linkIds_cex_C4 :
    linkIds
      [⟨⟨0, 30, 1, 1, 1, 0, [0, 0, 0], [1, 1, 1]⟩, "car"⟩,
       ⟨⟨1, 40, 1, 1, 1, 0, [0, 0, 0], [1, 1, 1]⟩, "car"⟩]
      [((0, 0, 2, 2), 7)] = [7, 7] ∧ ((7 : ℤ) ≠ -1) := by
  constructor
  · norm_num [linkIds, objectIdFor, firstMatchId]
    all_goals decide
  · decide

end Lidar
